import Mathlib

/-!
Verification development for the deep-research repository.

The definitions below are a shallow embedding of the core modules:
the recursive research scheduler (`src/deep-research.ts`), the record
verification / audit engine (`src/auditing.ts`, concatenated into
`src/feedback.ts` in the source snapshot), and the bounded text chunker.
External collaborators (the language-model service, the search service)
are modelled as an explicit environment of oracle functions; fallible
collaborator calls return `Except`.  JavaScript peculiarities that the
code relies on (`Array.prototype.slice` with a negative end index,
`Set`-based deduplication that keeps first occurrences, falsy `''` in
`x || y`, insertion-ordered `Map`) are embedded by dedicated helpers.
-/

/-- JavaScript `array.slice(0, fin)`: a negative `fin` counts from the end
(`max(length + fin, 0)`), a `fin` past the end yields the whole array. -/
def jsSlice0 {α : Type} (l : List α) (fin : Int) : List α :=
  if fin < 0 then l.take (l.length - fin.natAbs) else l.take fin.toNat

/-- JavaScript `[...new Set(xs)]`: deduplication keeping the first
occurrence of each element, in order. -/
def jsSetDedup (l : List String) : List String :=
  l.foldl (fun acc x => if x ∈ acc then acc else acc ++ [x]) []

/-- `Math.ceil(b / 2)` on an integer `b`. -/
def ceilHalf (b : Int) : Int := -(Int.ediv (-b) 2)

/-- A SERP sub-query produced by the language-model service
(`generateSerpQueries` result items). -/
structure SerpQuery where
  query : String
  researchGoal : String
deriving DecidableEq

/-- A document returned by the search service (Firecrawl item with
`url` and `markdown`); a missing url is embedded as `""` and removed
by `compact`. -/
structure SearchDoc where
  url : String
  markdown : String
deriving DecidableEq

/-- The object returned by `processSerpResult`. -/
structure LearningBatch where
  learnings : List String
  followUpQuestions : List String
deriving DecidableEq

/-- The result of `deepResearch`.  The extra `searches` component is
instrumentation recording which SERP queries were dispatched to the
search service; the `learnings`/`visitedUrls` components mirror the
source exactly. -/
structure ResearchResult where
  learnings : List String
  visitedUrls : List String
  searches : List String
deriving DecidableEq

/-- A structured contact record (`src/types.ts`).  Optional fields are
`Option`; `tags` is an array per the `Contact` interface. -/
structure Contact where
  name : String
  email : String
  company : String
  tags : List String
  position : String
  city : String
  stateProvince : String
  country : String
  number : Option String
  timeZone : String
  department : Option String
  priority : Int
  signal : String
  signalLevel : String
  compliment : String
  industry : String
  links : String
  source : String
deriving DecidableEq

/-- A field-level audit-trail entry (`src/types.ts`). -/
structure Correction where
  email : String
  field : String
  before : String
  after : String
  reason : String
deriving DecidableEq

/-- Audit configuration (`src/types.ts`). -/
structure AuditingCriteria where
  sampleSize : Int
  verificationDepth : Int

/-- The external collaborators consumed by the core, as oracle
functions: `serpQueries` is the language-model call inside
`generateSerpQueries` (query and prior learnings to generated
sub-queries, before the `slice(0, numQueries)` cut), `search` is
`firecrawl.search`, `processSerp` is the language-model call inside
`processSerpResult`, and `extract` is the language-model call inside
`generateContactsFromLearnings` (learnings and hierarchy hint to
contacts).  An `Except.error` models a thrown exception. -/
structure Env where
  serpQueries : String → List String → Except String (List SerpQuery)
  search : String → Except String (List SearchDoc)
  processSerp : String → List SearchDoc → Except String LearningBatch
  extract : List String → List String → Except String (List Contact)

/-- The follow-up query built from a sub-query's research goal and the
follow-up questions (whitespace layout simplified; only used as a key
into the environment oracles). -/
def nextQuery (sq : SerpQuery) (batch : LearningBatch) : String :=
  "Previous research goal: " ++ sq.researchGoal ++
    " Follow-up research directions: " ++
    String.intercalate " " batch.followUpQuestions

/-- One dispatched branch of `deepResearch` (the body of the
`limit(async () => ...)` closure, `src/deep-research.ts`): the whole
branch is wrapped in a `try`/`catch` that turns any failure — search
error or timeout, extraction error, or an error propagated out of the
recursive call — into the empty contribution.  `recur` is the recursive
`deepResearch` call used when `newDepth > 0`. -/
def runBranch
    (recur : String → Int → Int → List String → List String →
      Except String ResearchResult)
    (env : Env) (breadth depth : Int)
    (learnings visitedUrls : List String) (sq : SerpQuery) :
    ResearchResult :=
  match env.search sq.query with
  | .error _ => ⟨[], [], [sq.query]⟩
  | .ok docs =>
    match env.processSerp sq.query docs with
    | .error _ => ⟨[], [], [sq.query]⟩
    | .ok batch =>
      let newUrls := (docs.map SearchDoc.url).filter (fun u => u ≠ "")
      let newBreadth := ceilHalf breadth
      let newDepth := depth - 1
      let allLearnings := learnings ++ batch.learnings
      let allUrls := visitedUrls ++ newUrls
      if newDepth > 0 then
        match recur (nextQuery sq batch) newBreadth newDepth
            allLearnings allUrls with
        | .error _ => ⟨[], [], [sq.query]⟩
        | .ok r => ⟨r.learnings, r.visitedUrls, sq.query :: r.searches⟩
      else ⟨allLearnings, allUrls, [sq.query]⟩

/-- Fuelled embedding of `deepResearch`.  The recursion of the source
is on `depth` guarded by `newDepth > 0`; the fuel is a strict upper
bound on `depth` so the `0` case is unreachable from `deepResearch`.
An `Except.error` of the top-level sub-query generation propagates to
the caller; branch failures are absorbed by `runBranch`. -/
def deepResearchAux (env : Env) :
    Nat → String → Int → Int → List String → List String →
      Except String ResearchResult
  | 0, _, _, _, _, _ => .ok ⟨[], [], []⟩
  | fuel + 1, query, breadth, depth, learnings, visitedUrls =>
    match env.serpQueries query learnings with
    | .error e => .error e
    | .ok qs =>
      let serps := jsSlice0 qs breadth
      let results := serps.map (fun sq =>
        runBranch (fun q b d ls vs => deepResearchAux env fuel q b d ls vs)
          env breadth depth learnings visitedUrls sq)
      .ok ⟨jsSetDedup (results.flatMap ResearchResult.learnings),
           jsSetDedup (results.flatMap ResearchResult.visitedUrls),
           results.flatMap ResearchResult.searches⟩

/-- `deepResearch` (`src/deep-research.ts`), with the bypass
environment toggle out of scope.  Initial fuel `depth.toNat + 1`
strictly exceeds `depth`, so fuel never runs out. -/
def deepResearch (env : Env) (query : String) (breadth depth : Int)
    (learnings visitedUrls : List String) : Except String ResearchResult :=
  deepResearchAux env (depth.toNat + 1) query breadth depth
    learnings visitedUrls

/-- `list.startsWith pattern` on character lists (helper for the
JavaScript `String.prototype.includes`). -/
def listStartsWith : List Char → List Char → Bool
  | _, [] => true
  | [], _ :: _ => false
  | a :: as, b :: bs => a == b && listStartsWith as bs

/-- JavaScript `s.includes(pat)` on character lists. -/
def listIncludes : List Char → List Char → Bool
  | s, pat =>
    if listStartsWith s pat then true
    else
      match s with
      | [] => false
      | _ :: rest => listIncludes rest pat

/-- JavaScript `s.includes(pat)`. -/
def strIncludes (s pat : String) : Bool :=
  listIncludes s.toList pat.toList

/-- ASCII lower-casing of one character. -/
def lowerChar (c : Char) : Char :=
  if 'A' ≤ c ∧ c ≤ 'Z' then Char.ofNat (c.toNat + 32) else c

/-- JavaScript `s.toLowerCase()` (ASCII-faithful; the audited fields
are ASCII). -/
def lower (s : String) : String := String.mk (s.toList.map lowerChar)

/-- The candidate predicate of the `verifiedContacts.find(...)` call in
`verifyContact` (`src/auditing.ts` lines 98-106): candidate name
contains the original name (case-insensitive, that direction only), OR
emails are equal case-insensitively, OR the companies are equal
case-insensitively AND the candidate position contains the original
position (case-insensitive). -/
def matchPred (contact c : Contact) : Bool :=
  strIncludes (lower c.name) (lower contact.name) ||
  (lower c.email == lower contact.email) ||
  ((lower c.company == lower contact.company) &&
    strIncludes (lower c.position) (lower contact.position))

/-- `verifiedContacts.find(...) || verifiedContacts[0]`: the first
candidate satisfying `matchPred`, falling back to the first candidate
(`undefined` — here `none` — when the list is empty). -/
def matchCandidate (contact : Contact) (cands : List Contact) :
    Option Contact :=
  (cands.find? (matchPred contact)).orElse (fun _ => cands.head?)

/-- The fixed field set iterated by the diff loop of `verifyContact`. -/
inductive ContactField
  | name | email | company | position | department
  | city | stateProvince | country | industry | tags
deriving DecidableEq

/-- The `fields` array of `verifyContact`, in source order. -/
def diffFields : List ContactField :=
  [.name, .email, .company, .position, .department,
   .city, .stateProvince, .country, .industry, .tags]

/-- `String(contact[field] || '')`: strings pass through, a missing
optional field stringifies to `""`, an array stringifies to its
comma-join. -/
def contactFieldStr : ContactField → Contact → String
  | .name, c => c.name
  | .email, c => c.email
  | .company, c => c.company
  | .position, c => c.position
  | .department, c => c.department.getD ""
  | .city, c => c.city
  | .stateProvince, c => c.stateProvince
  | .country, c => c.country
  | .industry, c => c.industry
  | .tags, c => String.intercalate "," c.tags

/-- `String(field)` for the correction log. -/
def fieldName : ContactField → String
  | .name => "name"
  | .email => "email"
  | .company => "company"
  | .position => "position"
  | .department => "department"
  | .city => "city"
  | .stateProvince => "stateProvince"
  | .country => "country"
  | .industry => "industry"
  | .tags => "tags"

/-- The diff loop of `verifyContact`: one `Correction` per field where
both stringified values are non-empty and differ, keyed by the
original contact's email. -/
def diffContacts (contact verifiedContact : Contact) : List Correction :=
  diffFields.filterMap (fun field =>
    let originalValue := contactFieldStr field contact
    let verifiedValue := contactFieldStr field verifiedContact
    if originalValue ≠ "" ∧ verifiedValue ≠ "" ∧
        originalValue ≠ verifiedValue then
      some ⟨contact.email, fieldName field, originalValue, verifiedValue,
        "Verification research found updated information"⟩
    else none)

/-- The merge `{...contact, ...verifiedContact, email:
verifiedContact.email || contact.email}` of `verifyContact`
(`src/auditing.ts` lines 143-149): every candidate field overwrites the
original (absent optional fields fall back to the original's), and the
email is the candidate's unless the candidate's is empty. -/
def mergeContact (contact verifiedContact : Contact) : Contact :=
  { verifiedContact with
      email := if verifiedContact.email = "" then contact.email
        else verifiedContact.email
      department := verifiedContact.department.orElse
        (fun _ => contact.department)
      number := verifiedContact.number.orElse (fun _ => contact.number) }

/-- Template-literal interpolation of `undefined`. -/
def optStr : Option String → String
  | some s => s
  | none => "undefined"

/-- The verification query template of `verifyContact` (whitespace
layout condensed; only used as a key into the environment oracles). -/
def verificationQuery (contact : Contact) (originalQuery : String) :
    String :=
  "Verify information for " ++ contact.name ++ " at " ++
    contact.company ++ " in " ++ contact.position ++ " role, with " ++
    contact.email ++ " and " ++ optStr contact.number ++
    ". Context: " ++ originalQuery

/-- `generateContactsFromLearnings` (`src/deep-research.ts`): empty
learnings short-circuit to an empty list with no model call; otherwise
one extraction call is issued (bypass toggle out of scope). -/
def generateContactsFromLearnings (env : Env) (learnings : List String)
    (contactHierarchy : List String) : Except String (List Contact) :=
  if learnings = [] then .ok []
  else env.extract learnings contactHierarchy

/-- `verifyContact` (`src/auditing.ts`): re-research the contact with
`breadth = 2` at the configured verification depth, extract candidate
contacts, match, diff and merge.  The whole body is wrapped in
`try`/`catch`, so any failure returns the original contact with zero
corrections; so does an absent match candidate. -/
def verifyContact (env : Env) (originalQuery : String)
    (verificationDepth : Int) (contact : Contact) :
    Contact × List Correction :=
  match deepResearch env (verificationQuery contact originalQuery) 2
      verificationDepth [] [] with
  | .error _ => (contact, [])
  | .ok r =>
    match generateContactsFromLearnings env r.learnings
        [contact.position] with
    | .error _ => (contact, [])
    | .ok verifiedContacts =>
      match matchCandidate contact verifiedContacts with
      | none => (contact, [])
      | some verifiedContact =>
        (mergeContact contact verifiedContact,
         diffContacts contact verifiedContact)

/-- `getRandomSample` (`src/auditing.ts` lines 46-53): the whole array
when it is no longer than the sample size, otherwise `slice(0,
sampleSize)` of a shuffled copy.  The comparator-driven shuffle
(`sort(() => 0.5 - Math.random())`) always produces some permutation
of the array; it is embedded as the oracle `shuffle`. -/
def getRandomSample {α : Type} (shuffle : List α → List α)
    (array : List α) (sampleSize : Int) : List α :=
  if (array.length : Int) ≤ sampleSize then array
  else jsSlice0 (shuffle array) sampleSize

/-- JavaScript `Map.prototype.set`: update in place when the key is
present (insertion order kept), append otherwise. -/
def jsMapSet {β : Type} (m : List (String × β)) (k : String) (v : β) :
    List (String × β) :=
  if m.any (fun p => p.1 == k) then
    m.map (fun p => if p.1 == k then (k, v) else p)
  else m ++ [(k, v)]

/-- `auditContacts` (`src/auditing.ts` lines 162-253, bypass toggle out
of scope): seed an insertion-ordered map with every contact keyed by
email, verify each sampled contact and write its verified version back
under the original email, accumulating corrections; the verified list
is the map's values. -/
def auditContacts (env : Env) (shuffle : List Contact → List Contact)
    (contacts : List Contact) (criteria : AuditingCriteria)
    (originalQuery : String) : List Contact × List Correction :=
  if contacts = [] then ([], [])
  else
    let sampleContacts := getRandomSample shuffle contacts
      criteria.sampleSize
    let m0 := contacts.foldl
      (fun m contact => jsMapSet m contact.email contact) []
    let final := sampleContacts.foldl
      (fun (acc : List (String × Contact) × List Correction) contact =>
        let vc := verifyContact env originalQuery
          criteria.verificationDepth contact
        (jsMapSet acc.1 contact.email vc.1, acc.2 ++ vc.2))
      (m0, [])
    (final.1.map (fun p => p.2), final.2)

/-- The configuration failure of the text chunker. -/
inductive ConfigurationError
  | overlapNotLessThanChunkSize
deriving DecidableEq

/-- Modelled from the spec: the text chunker configuration
(`src/ai/text-splitter.ts` is not among the sources; spec section 4.1).
`chunkSize` and `chunkOverlap` as validated by the constructor. -/
structure TextSplitterConfig where
  chunkSize : Nat
  chunkOverlap : Nat

/-- Modelled from the spec: the `RecursiveCharacterTextSplitter`
constructor, which fails with a `ConfigurationError` unless
`chunkOverlap < chunkSize` (spec sections 4.1 and 7; the unit tests
expect the message `Cannot have chunkOverlap >= chunkSize`). -/
def mkTextSplitter (chunkSize chunkOverlap : Nat) :
    Except ConfigurationError TextSplitterConfig :=
  if chunkSize ≤ chunkOverlap then
    .error ConfigurationError.overlapNotLessThanChunkSize
  else .ok ⟨chunkSize, chunkOverlap⟩

/-- The last `n` characters of a chunk (the overlap carried into the
next chunk). -/
def lastN {α : Type} (n : Nat) (l : List α) : List α :=
  l.drop (l.length - n)

/-- Modelled from the spec: greedy packing of split units into chunks
of at most `chunkSize` characters, carrying the last `chunkOverlap`
characters of each emitted chunk as a prefix of the next chunk when
that prefix still lets the next unit fit (spec section 4.1).
`current` is the chunk being built. -/
def mergeUnitsGo (chunkSize chunkOverlap : Nat) :
    List Char → List (List Char) → List (List Char)
  | current, [] => if current = [] then [] else [current]
  | current, u :: rest =>
    if current.length + u.length ≤ chunkSize then
      mergeUnitsGo chunkSize chunkOverlap (current ++ u) rest
    else
      current :: mergeUnitsGo chunkSize chunkOverlap
        (if (lastN chunkOverlap current).length + u.length ≤ chunkSize
          then lastN chunkOverlap current ++ u else u) rest

/-- Modelled from the spec: pack a unit list into chunks (spec
section 4.1). -/
def mergeUnits (chunkSize chunkOverlap : Nat)
    (units : List (List Char)) : List (List Char) :=
  mergeUnitsGo chunkSize chunkOverlap [] units

/-- Split a character list on a separator character (separator
dropped, like `String.prototype.split`). -/
def splitOnChar (sep : Char) : List Char → List (List Char)
  | [] => [[]]
  | c :: rest =>
    let r := splitOnChar sep rest
    if c = sep then [] :: r
    else
      match r with
      | [] => [[c]]
      | p :: ps => (c :: p) :: ps

/-- Modelled from the spec: recursive splitting with a separator
priority list — split on the current separator, recurse with the next
finer separator on any piece still larger than `chunkSize`, then pack
the resulting units greedily; at the finest level the units are single
characters (spec section 4.1). -/
def splitWithSeps (chunkSize chunkOverlap : Nat) :
    List Char → List Char → List (List Char)
  | [], text =>
    mergeUnits chunkSize chunkOverlap (text.map (fun c => [c]))
  | sep :: rest, text =>
    let pieces := splitOnChar sep text
    let units := pieces.flatMap (fun p =>
      if p.length ≤ chunkSize then [p]
      else splitWithSeps chunkSize chunkOverlap rest p)
    mergeUnits chunkSize chunkOverlap units

/-- Modelled from the spec: the separator priority order — line break,
sentence-ending punctuation, word boundary, then character level (the
paragraph-break level collapses into the line-break level in this
single-character embedding; spec section 4.1). -/
def splitterSeps : List Char := ['\n', '.', ' ']

/-- Modelled from the spec: `splitText` of the text chunker
(`src/ai/text-splitter.ts` is not among the sources; spec sections 4.1
and 8, corroborated by `test/unit/text-splitter.test.ts`): empty input
yields no chunks, input no longer than `chunkSize` is returned whole,
anything else is split recursively by separator priority. -/
def splitTextL (chunkSize chunkOverlap : Nat) (text : List Char) :
    List (List Char) :=
  if text = [] then []
  else if text.length ≤ chunkSize then [text]
  else splitWithSeps chunkSize chunkOverlap splitterSeps text

lemma jsSetDedup_loop_mem (l : List String) :
    ∀ (acc : List String) (a : String),
      (a ∈ l.foldl (fun acc x => if x ∈ acc then acc else acc ++ [x]) acc ↔
        a ∈ acc ∨ a ∈ l) := by
  induction l with
  | nil => simp
  | cons x xs ih =>
    intro acc a
    simp only [List.foldl_cons]
    rw [ih]
    by_cases hx : x ∈ acc
    · simp only [if_pos hx, List.mem_cons]
      constructor
      · rintro (h | h)
        · exact Or.inl h
        · exact Or.inr (Or.inr h)
      · rintro (h | h | h)
        · exact Or.inl h
        · exact Or.inl (h ▸ hx)
        · exact Or.inr h
    · simp only [if_neg hx, List.mem_append, List.mem_singleton,
        List.mem_cons]
      tauto

lemma jsSetDedup_loop_nodup (l : List String) :
    ∀ acc : List String, acc.Nodup →
      (l.foldl (fun acc x => if x ∈ acc then acc else acc ++ [x])
        acc).Nodup := by
  induction l with
  | nil => simp
  | cons x xs ih =>
    intro acc hacc
    simp only [List.foldl_cons]
    apply ih
    by_cases hx : x ∈ acc
    · simpa [hx]
    · simp [hx, List.nodup_append, hacc]

lemma jsSetDedup_nodup (l : List String) : (jsSetDedup l).Nodup :=
  jsSetDedup_loop_nodup l [] List.nodup_nil

lemma mem_jsSetDedup (l : List String) (a : String) :
    a ∈ jsSetDedup l ↔ a ∈ l := by
  simp [jsSetDedup, jsSetDedup_loop_mem]

/-- Claim C4: every result returned by the research scheduler — at the
top level and at every recursive merge point (any fuel of
`deepResearchAux`) — has duplicate-free `learnings` and `visitedUrls`
lists, for any combination of branch outputs. -/
theorem deepResearch_merges_nodup (env : Env) (query : String)
    (breadth depth : Int) (learnings visitedUrls : List String) :
    (∀ r, deepResearch env query breadth depth learnings visitedUrls =
        .ok r → r.learnings.Nodup ∧ r.visitedUrls.Nodup) ∧
    (∀ fuel r,
      deepResearchAux env fuel query breadth depth learnings visitedUrls =
        .ok r → r.learnings.Nodup ∧ r.visitedUrls.Nodup) := by
  have haux : ∀ fuel r,
      deepResearchAux env fuel query breadth depth learnings visitedUrls =
        .ok r → r.learnings.Nodup ∧ r.visitedUrls.Nodup := by
    intro fuel r h
    match fuel with
    | 0 =>
      simp only [deepResearchAux, Except.ok.injEq] at h
      subst h
      exact ⟨List.nodup_nil, List.nodup_nil⟩
    | fuel + 1 =>
      rw [deepResearchAux] at h
      cases henv : env.serpQueries query learnings with
      | error e => rw [henv] at h; exact absurd h (by simp)
      | ok qs =>
        rw [henv] at h
        simp only [Except.ok.injEq] at h
        subst h
        exact ⟨jsSetDedup_nodup _, jsSetDedup_nodup _⟩
  exact ⟨fun r h => haux (depth.toNat + 1) r h, haux⟩

/-- A deterministic environment with one sub-query, one document and
one learning, used to instantiate theorems about the scheduler. -/
def envOne : Env where
  serpQueries := fun _ _ => .ok [⟨"s1", "g1"⟩]
  search := fun _ => .ok [⟨"https://u", "m"⟩]
  processSerp := fun _ _ => .ok ⟨["learning one"], []⟩
  extract := fun _ _ => .ok []

theorem deepResearch_merges_nodup_witness :
    (["learning one"] : List String).Nodup ∧
      (["https://u"] : List String).Nodup := by
  have h : deepResearch envOne "q" 1 1 [] [] =
      .ok ⟨["learning one"], ["https://u"], ["s1"]⟩ := by rfl
  exact (deepResearch_merges_nodup envOne "q" 1 1 [] []).1 _ h

/-- Claim C1 (amended): when `breadth = 0` and the sub-query expansion
call succeeds, `deepResearch` returns the empty result and dispatches
no search (and hence no extraction) work — `slice(0, 0)` discards every
generated sub-query.  (The original claim fails for `depth <= 0` with
positive breadth, and for negative breadth: see the counterexample.) -/
theorem deepResearch_breadth_zero_empty (env : Env) (query : String)
    (depth : Int) (learnings visitedUrls : List String)
    (qs : List SerpQuery)
    (h : env.serpQueries query learnings = .ok qs) :
    deepResearch env query 0 depth learnings visitedUrls =
      .ok ⟨[], [], []⟩ := by
  rw [deepResearch, deepResearchAux, h]
  simp [jsSlice0, jsSetDedup]

theorem deepResearch_breadth_zero_empty_witness :
    deepResearch envOne "q" 0 5 [] [] = .ok ⟨[], [], []⟩ :=
  deepResearch_breadth_zero_empty envOne "q" 5 [] [] [⟨"s1", "g1"⟩] rfl

/-- Claim C1 counterexample: with `depth = 0` (hence `depth <= 0`) and
`breadth = 2`, the scheduler still dispatches a search and returns a
non-empty result — there is no terminal guard on `breadth`/`depth` in
`deepResearch`. -/
theorem deepResearch_depth_zero_not_empty :
    deepResearch envOne "q" 2 0 [] [] =
      .ok ⟨["learning one"], ["https://u"], ["s1"]⟩ ∧
    (⟨["learning one"], ["https://u"], ["s1"]⟩ : ResearchResult) ≠
      ⟨[], [], []⟩ := by
  constructor
  · rfl
  · decide

/-- The branch function a top-level `deepResearch` call maps over its
sub-queries (`runBranch` with the recursive continuation it actually
receives). -/
def branchOf (env : Env) (breadth depth : Int)
    (learnings visitedUrls : List String) (sq : SerpQuery) :
    ResearchResult :=
  runBranch (fun q b d ls vs => deepResearchAux env depth.toNat q b d ls vs)
    env breadth depth learnings visitedUrls sq

lemma deepResearch_as_branches (env : Env) (query : String)
    (breadth depth : Int) (learnings visitedUrls : List String)
    (qs : List SerpQuery)
    (henv : env.serpQueries query learnings = .ok qs) :
    deepResearch env query breadth depth learnings visitedUrls =
      .ok ⟨jsSetDedup (((jsSlice0 qs breadth).map
            (branchOf env breadth depth learnings visitedUrls)).flatMap
            ResearchResult.learnings),
          jsSetDedup (((jsSlice0 qs breadth).map
            (branchOf env breadth depth learnings visitedUrls)).flatMap
            ResearchResult.visitedUrls),
          ((jsSlice0 qs breadth).map
            (branchOf env breadth depth learnings visitedUrls)).flatMap
            ResearchResult.searches⟩ := by
  rw [deepResearch, deepResearchAux, henv]
  rfl

/-- Claim C5: a failing search branch contributes the empty result and
the failure is not propagated — the parent call still returns a result
in which every sibling branch's learnings and URLs appear. -/
theorem search_branch_failure_isolated (env : Env) (query : String)
    (breadth depth : Int) (learnings visitedUrls : List String)
    (qs : List SerpQuery)
    (henv : env.serpQueries query learnings = .ok qs) :
    (∀ sq ∈ jsSlice0 qs breadth, ∀ e, env.search sq.query = .error e →
      branchOf env breadth depth learnings visitedUrls sq =
        ⟨[], [], [sq.query]⟩) ∧
    ∀ r, deepResearch env query breadth depth learnings visitedUrls =
        .ok r →
      ∀ sq ∈ jsSlice0 qs breadth,
        (∀ x ∈ (branchOf env breadth depth learnings visitedUrls
            sq).learnings, x ∈ r.learnings) ∧
        (∀ u ∈ (branchOf env breadth depth learnings visitedUrls
            sq).visitedUrls, u ∈ r.visitedUrls) := by
  constructor
  · intro sq _ e hfail
    simp [branchOf, runBranch, hfail]
  · intro r hr sq hmem
    rw [deepResearch_as_branches env query breadth depth learnings
        visitedUrls qs henv] at hr
    simp only [Except.ok.injEq] at hr
    subst hr
    constructor
    · intro x hx
      simp only [mem_jsSetDedup, List.mem_flatMap]
      exact ⟨branchOf env breadth depth learnings visitedUrls sq,
        List.mem_map_of_mem _ hmem, hx⟩
    · intro u hu
      simp only [mem_jsSetDedup, List.mem_flatMap]
      exact ⟨branchOf env breadth depth learnings visitedUrls sq,
        List.mem_map_of_mem _ hmem, hu⟩

/-- An environment whose first sub-query's search times out while the
second succeeds. -/
def envFail : Env where
  serpQueries := fun _ _ => .ok [⟨"bad", "g1"⟩, ⟨"good", "g2"⟩]
  search := fun q =>
    if q = "bad" then .error "Timeout" else .ok [⟨"https://u2", "m"⟩]
  processSerp := fun _ _ => .ok ⟨["sibling learning"], []⟩
  extract := fun _ _ => .ok []

theorem search_branch_failure_isolated_witness :
    branchOf envFail 2 1 [] [] ⟨"bad", "g1"⟩ = ⟨[], [], ["bad"]⟩ ∧
    "sibling learning" ∈
      (⟨["sibling learning"], ["https://u2"], ["bad", "good"]⟩ :
        ResearchResult).learnings := by
  have h := search_branch_failure_isolated envFail "q" 2 1 [] []
    [⟨"bad", "g1"⟩, ⟨"good", "g2"⟩] rfl
  refine ⟨h.1 ⟨"bad", "g1"⟩ (by decide) "Timeout" rfl, ?_⟩
  exact (h.2 ⟨["sibling learning"], ["https://u2"], ["bad", "good"]⟩
      (by rfl) ⟨"good", "g2"⟩ (by decide)).1 "sibling learning" (by decide)

/-- A contact with the given identifying fields and neutral defaults
elsewhere. -/
def mkContact (name email company position : String) : Contact :=
  ⟨name, email, company, [], position, "", "", "", none, "", none, 1,
   "", "", "", "", "", "deep-research"⟩

/-- Claim C2 (code bug): the merge keeps the candidate's email, not the
original's.  The first conjunct characterizes the source expression
`email: verifiedContact.email || contact.email`; the rest evaluates it
at the failing input — a candidate whose email differs from the
original's — where the merged record carries the candidate's email,
although the spec, the repository's own tests
(`test/unit/auditing.test.ts` "should preserve email as primary key",
`test/integration/audit-flow.test.ts`) and the code's own comment
("Keep original email as primary key") require the original's. -/
theorem merge_email_from_candidate :
    (∀ c v : Contact, (mergeContact c v).email =
      if v.email = "" then c.email else v.email) ∧
    (mergeContact (mkContact "Ann Lee" "a@x.com" "Acme" "CEO")
        (mkContact "Ann Lee" "b@x.com" "Acme" "CEO")).email = "b@x.com" ∧
    ("b@x.com" : String) ≠ "a@x.com" :=
  ⟨fun _ _ => rfl, rfl, by decide⟩

/-- Modelled from the claim C3 wording, for comparison only (the code
under `src` is the authority): priority-ordered candidate selection —
(1) case-insensitive email equality, (2) name substring in either
direction AND company+position match, (3) company+position alone,
(4) the first candidate. -/
def selectCandidateSpec (contact : Contact) (cands : List Contact) :
    Option Contact :=
  match cands.find? (fun c => lower c.email == lower contact.email) with
  | some c => some c
  | none =>
    match cands.find? (fun c =>
        (strIncludes (lower c.name) (lower contact.name) ||
          strIncludes (lower contact.name) (lower c.name)) &&
        ((lower c.company == lower contact.company) &&
          strIncludes (lower c.position) (lower contact.position))) with
    | some c => some c
    | none =>
      match cands.find? (fun c =>
          (lower c.company == lower contact.company) &&
          strIncludes (lower c.position) (lower contact.position)) with
      | some c => some c
      | none => cands.head?

/-- Claim C3 counterexample: with an email-exact candidate second in
the list and a name-substring-only candidate first, the code selects
the first (its `find` tests all three rules at once, in list order),
while the claimed priority order would select the email match. -/
theorem matchCandidate_not_priority_ordered :
    matchCandidate (mkContact "Ann" "a@x.com" "Acme" "CEO")
      [mkContact "Ann Lee" "x@y.com" "Other" "CTO",
       mkContact "Bob" "A@X.com" "B" "Dev"] =
      some (mkContact "Ann Lee" "x@y.com" "Other" "CTO") ∧
    selectCandidateSpec (mkContact "Ann" "a@x.com" "Acme" "CEO")
      [mkContact "Ann Lee" "x@y.com" "Other" "CTO",
       mkContact "Bob" "A@X.com" "B" "Dev"] =
      some (mkContact "Bob" "A@X.com" "B" "Dev") ∧
    (lower (mkContact "Bob" "A@X.com" "B" "Dev").email ==
      lower (mkContact "Ann" "a@x.com" "Acme" "CEO").email) = true ∧
    mkContact "Ann Lee" "x@y.com" "Other" "CTO" ≠
      mkContact "Bob" "A@X.com" "B" "Dev" := by
  refine ⟨by decide, by decide, by decide, by decide⟩

/-- Claim C3 (amended): the audit engine selects the first candidate,
in returned order, satisfying any one of the three rules — candidate
name contains the original name (case-insensitive, that direction
only), email exact match (case-insensitive), or company equality plus
candidate position containing the original position (case-insensitive)
— and falls back to the first candidate when none satisfies any rule. -/
theorem matchCandidate_first_any_rule (contact : Contact)
    (cands : List Contact) (h : cands ≠ []) :
    ∃ c, matchCandidate contact cands = some c ∧ c ∈ cands ∧
      ((∃ pre post, cands = pre ++ c :: post ∧
          matchPred contact c = true ∧
          ∀ p ∈ pre, matchPred contact p = false) ∨
        ((∀ p ∈ cands, matchPred contact p = false) ∧
          cands.head? = some c)) := by
  cases hfind : cands.find? (matchPred contact) with
  | some c =>
    refine ⟨c, ?_, List.mem_of_find?_eq_some hfind, ?_⟩
    · simp [matchCandidate, hfind, Option.orElse]
    · left
      rw [List.find?_eq_some] at hfind
      obtain ⟨hc, pre, post, heq, hpre⟩ := hfind
      exact ⟨pre, post, heq, hc, fun p hp => by simpa using hpre p hp⟩
  | none =>
    match cands, h with
    | a :: as, _ =>
      refine ⟨a, ?_, List.mem_cons_self a as, Or.inr ⟨?_, rfl⟩⟩
      · simp [matchCandidate, hfind, Option.orElse]
      · intro p hp
        simpa using List.find?_eq_none.mp hfind p hp

theorem matchCandidate_first_any_rule_witness :
    matchCandidate (mkContact "Ann" "a@x.com" "Acme" "CEO")
      [mkContact "Zed" "z@z.com" "Z" "Dev"] =
      some (mkContact "Zed" "z@z.com" "Z" "Dev") := by
  obtain ⟨c, hc, hmem, _⟩ := matchCandidate_first_any_rule
    (mkContact "Ann" "a@x.com" "Acme" "CEO")
    [mkContact "Zed" "z@z.com" "Z" "Dev"] (by decide)
  have hce : c = mkContact "Zed" "z@z.com" "Z" "Dev" := by
    simpa using hmem
  rw [hce] at hc
  exact hc

lemma jsSlice0_nonneg {α : Type} (l : List α) (n : Int) (hn : 0 ≤ n) :
    jsSlice0 l n = l.take n.toNat := by
  rw [jsSlice0, if_neg (by omega)]

/-- Claim C8: the audit engine samples `min(sampleSize, length)`
records, without replacement — the sample never contains an element
more often than the input does (hence all selected records are
distinct elements of the input). -/
theorem getRandomSample_spec {α : Type} [DecidableEq α]
    (shuffle : List α → List α) (array : List α) (sampleSize : Int)
    (hn : 0 ≤ sampleSize) (hsh : (shuffle array).Perm array) :
    (getRandomSample shuffle array sampleSize).length =
      min sampleSize.toNat array.length ∧
    ∀ x, (getRandomSample shuffle array sampleSize).count x ≤
      array.count x := by
  rw [getRandomSample]
  by_cases hle : (array.length : Int) ≤ sampleSize
  · rw [if_pos hle]
    exact ⟨by omega, fun x => le_refl _⟩
  · rw [if_neg hle, jsSlice0_nonneg _ _ hn]
    constructor
    · rw [List.length_take, hsh.length_eq]
    · intro x
      calc ((shuffle array).take sampleSize.toNat).count x ≤
            (shuffle array).count x :=
          (List.take_sublist _ _).count_le x
        _ = array.count x := hsh.count_eq x

theorem getRandomSample_spec_witness :
    (getRandomSample (fun l => l) [10, 20, 30] 2).length = 2 ∧
    (getRandomSample (fun l => l) [10, 20, 30] 2).count 10 ≤
      ([10, 20, 30] : List Nat).count 10 := by
  have h := getRandomSample_spec (fun l => l) ([10, 20, 30] : List Nat) 2
    (by decide) (List.Perm.refl _)
  exact ⟨by simpa using h.1, h.2 10⟩

lemma jsMapSet_fresh {β : Type} (m : List (String × β)) (k : String)
    (v : β) (h : ∀ p ∈ m, p.1 ≠ k) : jsMapSet m k v = m ++ [(k, v)] := by
  rw [jsMapSet, if_neg]
  simp only [List.any_eq_true, beq_iff_eq, not_exists, not_and]
  exact h

lemma email_inj {contacts : List Contact}
    (hnodup : (contacts.map Contact.email).Nodup) {c c' : Contact}
    (hc : c ∈ contacts) (hc' : c' ∈ contacts)
    (he : c.email = c'.email) : c = c' :=
  List.inj_on_of_nodup_map hnodup hc hc' he

lemma foldl_jsMapSet_seed (contacts : List Contact) :
    ∀ (m : List (String × Contact)),
      (contacts.map Contact.email).Nodup →
      (∀ c ∈ contacts, ∀ p ∈ m, p.1 ≠ c.email) →
      contacts.foldl (fun m c => jsMapSet m c.email c) m =
        m ++ contacts.map (fun c => (c.email, c)) := by
  induction contacts with
  | nil => intro m _ _; simp
  | cons c cs ih =>
    intro m hnodup hdisj
    simp only [List.map_cons, List.nodup_cons, List.mem_map] at hnodup
    simp only [List.foldl_cons]
    rw [jsMapSet_fresh _ _ _ (fun p hp => hdisj c (by simp) p hp)]
    rw [ih (m ++ [(c.email, c)]) hnodup.2 ?_]
    · simp
    · intro c' hc' p hp
      rcases List.mem_append.mp hp with h | h
      · exact hdisj c' (List.mem_cons_of_mem c hc') p h
      · simp only [List.mem_singleton] at h
        subst h
        intro hEq
        exact hnodup.1 ⟨c', hc', hEq.symm⟩

lemma foldl_jsMapSet_update (contacts : List Contact)
    (hnodup : (contacts.map Contact.email).Nodup)
    (vf : Contact → Contact) :
    ∀ (s : List Contact) (f : Contact → Contact),
      (∀ c ∈ s, c ∈ contacts) →
      s.foldl (fun m c => jsMapSet m c.email (vf c))
        (contacts.map (fun c => (c.email, f c))) =
      contacts.map (fun c =>
        (c.email, if c ∈ s then vf c else f c)) := by
  intro s
  induction s with
  | nil =>
    intro f _
    simp
  | cons c0 rest ih =>
    intro f hsub
    simp only [List.foldl_cons]
    have hstep : jsMapSet (contacts.map (fun c => (c.email, f c)))
        c0.email (vf c0) =
        contacts.map (fun c =>
          (c.email, if c = c0 then vf c else f c)) := by
      rw [jsMapSet, if_pos]
      · rw [List.map_map]
        apply List.map_congr_left
        intro c hc
        by_cases hce : c.email = c0.email
        · have hcc : c = c0 :=
            email_inj hnodup hc (hsub c0 (by simp)) hce
          subst hcc
          simp
        · simp only [Function.comp_apply]
          rw [if_neg (by simpa using hce),
            if_neg (fun hcc => hce (by rw [hcc]))]
      · simp only [List.any_eq_true]
        exact ⟨(c0.email, f c0),
          List.mem_map_of_mem _ (hsub c0 (by simp)), by simp⟩
    rw [hstep, ih (fun c => if c = c0 then vf c else f c)
      (fun c hc => hsub c (List.mem_cons_of_mem c0 hc))]
    apply List.map_congr_left
    intro c hc
    by_cases h1 : c ∈ rest
    · simp [h1, List.mem_cons_of_mem c0 h1]
    · by_cases h2 : c = c0
      · subst h2
        simp [h1]
      · simp [h1, h2, List.mem_cons]

lemma foldl_pair_split (g : Contact → Contact)
    (h : Contact → List Correction) :
    ∀ (s : List Contact) (m : List (String × Contact))
      (cs : List Correction),
      s.foldl (fun acc c => (jsMapSet acc.1 c.email (g c), acc.2 ++ h c))
        (m, cs) =
      (s.foldl (fun m c => jsMapSet m c.email (g c)) m,
        cs ++ s.flatMap h) := by
  intro s
  induction s with
  | nil => intro m cs; simp
  | cons c0 rest ih =>
    intro m cs
    simp only [List.foldl_cons, List.flatMap_cons]
    rw [ih]
    simp [List.append_assoc]

lemma getRandomSample_mem (shuffle : List Contact → List Contact)
    (array : List Contact) (n : Int)
    (hsh : (shuffle array).Perm array) :
    ∀ c ∈ getRandomSample shuffle array n, c ∈ array := by
  intro c hc
  rw [getRandomSample] at hc
  split at hc
  · exact hc
  · rw [jsSlice0] at hc
    split at hc
    · exact hsh.mem_iff.mp (List.take_subset _ _ hc)
    · exact hsh.mem_iff.mp (List.take_subset _ _ hc)

lemma auditContacts_characterization (env : Env)
    (shuffle : List Contact → List Contact) (contacts : List Contact)
    (criteria : AuditingCriteria) (originalQuery : String)
    (hnodup : (contacts.map Contact.email).Nodup)
    (hsh : (shuffle contacts).Perm contacts) :
    auditContacts env shuffle contacts criteria originalQuery =
      (contacts.map (fun c =>
        if c ∈ getRandomSample shuffle contacts criteria.sampleSize then
          (verifyContact env originalQuery criteria.verificationDepth c).1
        else c),
       (getRandomSample shuffle contacts criteria.sampleSize).flatMap
         (fun c =>
           (verifyContact env originalQuery criteria.verificationDepth
             c).2)) := by
  by_cases hempty : contacts = []
  · subst hempty
    have hsm : getRandomSample shuffle ([] : List Contact)
        criteria.sampleSize = [] := by
      rw [getRandomSample]
      split
      · rfl
      · rw [List.Perm.eq_nil hsh, jsSlice0]
        split <;> simp
    rw [auditContacts, if_pos rfl]
    simp [hsm]
  · simp only [auditContacts, if_neg hempty]
    rw [foldl_jsMapSet_seed contacts [] hnodup (by simp)]
    rw [List.nil_append]
    rw [foldl_pair_split
      (fun c => (verifyContact env originalQuery
        criteria.verificationDepth c).1)
      (fun c => (verifyContact env originalQuery
        criteria.verificationDepth c).2)]
    rw [foldl_jsMapSet_update contacts hnodup
      (fun c => (verifyContact env originalQuery
        criteria.verificationDepth c).1)
      (getRandomSample shuffle contacts criteria.sampleSize)
      (fun c => c)
      (getRandomSample_mem shuffle contacts criteria.sampleSize hsh)]
    rw [List.nil_append, List.map_map]
    rfl

/-- Claim C6: for pairwise-distinct email identities, the verified
list returned by `auditContacts` has exactly the length of the input
list (for every `criteria`, including `sampleSize >= length`), and
every record that was not sampled appears in it unchanged. -/
theorem audit_preserves_unsampled (env : Env)
    (shuffle : List Contact → List Contact) (contacts : List Contact)
    (criteria : AuditingCriteria) (originalQuery : String)
    (hnodup : (contacts.map Contact.email).Nodup)
    (hsh : (shuffle contacts).Perm contacts) :
    (auditContacts env shuffle contacts criteria
      originalQuery).1.length = contacts.length ∧
    ∀ c ∈ contacts,
      c ∉ getRandomSample shuffle contacts criteria.sampleSize →
      c ∈ (auditContacts env shuffle contacts criteria originalQuery).1 := by
  rw [auditContacts_characterization env shuffle contacts criteria
    originalQuery hnodup hsh]
  constructor
  · simp
  · intro c hc hns
    simp only [List.mem_map]
    exact ⟨c, hc, by rw [if_neg hns]⟩

theorem audit_preserves_unsampled_witness :
    (auditContacts envOne (fun l => l)
      [mkContact "Ann" "a@x.com" "Acme" "CEO",
       mkContact "Bob" "b@x.com" "Beta" "CTO"]
      ⟨5, 1⟩ "q").1.length = 2 :=
  (audit_preserves_unsampled envOne (fun l => l)
    [mkContact "Ann" "a@x.com" "Acme" "CEO",
     mkContact "Bob" "b@x.com" "Beta" "CTO"]
    ⟨5, 1⟩ "q" (by decide) (List.Perm.refl _)).1

/-- Claim C7: any failure while verifying one sampled record — a
research error (search/model failure surfacing from `deepResearch`),
an extraction error, or an empty extraction result — is caught locally:
`verifyContact` returns the record unchanged with zero corrections, and
`auditContacts` still processes every other record (the audit completes
with a full-length verified list in which every contact's entry — the
verified version if sampled, the original otherwise — appears). -/
theorem verify_failure_isolated (env : Env) (originalQuery : String)
    (criteria : AuditingCriteria) (c : Contact)
    (contacts : List Contact)
    (shuffle : List Contact → List Contact) :
    (∀ e, deepResearch env (verificationQuery c originalQuery) 2
        criteria.verificationDepth [] [] = .error e →
      verifyContact env originalQuery criteria.verificationDepth c =
        (c, [])) ∧
    (∀ r e, deepResearch env (verificationQuery c originalQuery) 2
        criteria.verificationDepth [] [] = .ok r →
      env.extract r.learnings [c.position] = .error e →
      verifyContact env originalQuery criteria.verificationDepth c =
        (c, [])) ∧
    (∀ r, deepResearch env (verificationQuery c originalQuery) 2
        criteria.verificationDepth [] [] = .ok r →
      generateContactsFromLearnings env r.learnings [c.position] =
        .ok [] →
      verifyContact env originalQuery criteria.verificationDepth c =
        (c, [])) ∧
    ((contacts.map Contact.email).Nodup →
      (shuffle contacts).Perm contacts →
      verifyContact env originalQuery criteria.verificationDepth c =
        (c, []) →
      c ∈ contacts →
      c ∈ (auditContacts env shuffle contacts criteria originalQuery).1 ∧
      (auditContacts env shuffle contacts criteria
        originalQuery).1.length = contacts.length ∧
      ∀ c' ∈ contacts,
        (if c' ∈ getRandomSample shuffle contacts criteria.sampleSize
          then (verifyContact env originalQuery
            criteria.verificationDepth c').1
          else c') ∈
          (auditContacts env shuffle contacts criteria originalQuery).1) := by
  refine ⟨?_, ?_, ?_, ?_⟩
  · intro e herr
    rw [verifyContact, herr]
  · intro r e hok herr
    rw [verifyContact, hok]
    dsimp only
    rw [generateContactsFromLearnings]
    by_cases hl : r.learnings = []
    · rw [if_pos hl]
      rfl
    · rw [if_neg hl, herr]
  · intro r hok hempty
    rw [verifyContact, hok]
    dsimp only
    rw [hempty]
    rfl
  · intro hnodup hsh hv hc
    rw [auditContacts_characterization env shuffle contacts criteria
      originalQuery hnodup hsh]
    refine ⟨?_, by simp, ?_⟩
    · simp only [List.mem_map]
      refine ⟨c, hc, ?_⟩
      by_cases hs : c ∈ getRandomSample shuffle contacts
        criteria.sampleSize
      · rw [if_pos hs, hv]
      · rw [if_neg hs]
    · intro c' hc'
      simp only [List.mem_map]
      exact ⟨c', hc', rfl⟩

/-- An environment whose sub-query generation always fails (a model
error), so every `deepResearch` call errors out. -/
def envErr : Env where
  serpQueries := fun _ _ => .error "ModelError"
  search := fun _ => .error "unreachable"
  processSerp := fun _ _ => .error "unreachable"
  extract := fun _ _ => .error "unreachable"

theorem verify_failure_isolated_witness :
    verifyContact envErr "q" 1 (mkContact "Ann" "a@x.com" "Acme" "CEO") =
      (mkContact "Ann" "a@x.com" "Acme" "CEO", []) ∧
    (auditContacts envErr (fun l => l)
      [mkContact "Ann" "a@x.com" "Acme" "CEO"] ⟨1, 1⟩ "q").1.length = 1 := by
  have h := verify_failure_isolated envErr "q" ⟨1, 1⟩
    (mkContact "Ann" "a@x.com" "Acme" "CEO")
    [mkContact "Ann" "a@x.com" "Acme" "CEO"] (fun l => l)
  have h1 : verifyContact envErr "q" 1
      (mkContact "Ann" "a@x.com" "Acme" "CEO") =
      (mkContact "Ann" "a@x.com" "Acme" "CEO", []) :=
    h.1 "ModelError" rfl
  exact ⟨h1, (h.2.2.2 (by decide) (List.Perm.refl _) h1 (by simp)).2.1⟩

/-- Claim C9: constructing the text chunker fails with a
`ConfigurationError` exactly when `chunkOverlap >= chunkSize`, and
succeeds (no error) exactly when `chunkOverlap < chunkSize`. -/
theorem mkTextSplitter_overlap_check (chunkSize chunkOverlap : Nat) :
    (mkTextSplitter chunkSize chunkOverlap =
        .error ConfigurationError.overlapNotLessThanChunkSize ↔
      chunkSize ≤ chunkOverlap) ∧
    (mkTextSplitter chunkSize chunkOverlap =
        .ok ⟨chunkSize, chunkOverlap⟩ ↔
      chunkOverlap < chunkSize) := by
  rw [mkTextSplitter]
  by_cases h : chunkSize ≤ chunkOverlap
  · rw [if_pos h]
    constructor
    · simp [h]
    · constructor
      · intro habs; cases habs
      · omega
  · rw [if_neg h]
    constructor
    · constructor
      · intro habs; cases habs
      · omega
    · simp; omega

lemma lastN_length_le {α : Type} (n : Nat) (l : List α) :
    (lastN n l).length ≤ n := by
  rw [lastN, List.length_drop]
  omega

lemma mergeUnitsGo_length_le (chunkSize chunkOverlap : Nat) :
    ∀ (units : List (List Char)) (current : List Char),
      current.length ≤ chunkSize →
      (∀ u ∈ units, u.length ≤ chunkSize) →
      ∀ chunk ∈ mergeUnitsGo chunkSize chunkOverlap current units,
        chunk.length ≤ chunkSize := by
  intro units
  induction units with
  | nil =>
    intro current hcur _ chunk hchunk
    by_cases hc : current = []
    · rw [mergeUnitsGo, if_pos hc] at hchunk
      cases hchunk
    · rw [mergeUnitsGo, if_neg hc, List.mem_singleton] at hchunk
      exact hchunk ▸ hcur
  | cons u rest ih =>
    intro current hcur hunits chunk hchunk
    rw [mergeUnitsGo] at hchunk
    by_cases hfit : current.length + u.length ≤ chunkSize
    · rw [if_pos hfit] at hchunk
      refine ih (current ++ u) (by rw [List.length_append]; omega)
        (fun v hv => hunits v (List.mem_cons_of_mem _ hv)) chunk hchunk
    · rw [if_neg hfit] at hchunk
      rcases List.mem_cons.mp hchunk with h | h
      · exact h ▸ hcur
      · refine ih _ ?_
          (fun v hv => hunits v (List.mem_cons_of_mem _ hv)) chunk h
        by_cases hc2 :
            (lastN chunkOverlap current).length + u.length ≤ chunkSize
        · rw [if_pos hc2, List.length_append]
          omega
        · rw [if_neg hc2]
          exact hunits u (List.mem_cons_self _ _)

lemma splitWithSeps_length_le (chunkSize chunkOverlap : Nat)
    (hpos : 1 ≤ chunkSize) :
    ∀ (seps : List Char) (text : List Char),
      ∀ chunk ∈ splitWithSeps chunkSize chunkOverlap seps text,
        chunk.length ≤ chunkSize := by
  intro seps
  induction seps with
  | nil =>
    intro text chunk hchunk
    simp only [splitWithSeps, mergeUnits] at hchunk
    refine mergeUnitsGo_length_le chunkSize chunkOverlap _ []
      (by simp) ?_ chunk hchunk
    intro u hu
    simp only [List.mem_map] at hu
    obtain ⟨ch, _, hu⟩ := hu
    rw [← hu]
    simpa using hpos
  | cons sep rest ih =>
    intro text chunk hchunk
    simp only [splitWithSeps, mergeUnits] at hchunk
    refine mergeUnitsGo_length_le chunkSize chunkOverlap _ []
      (by simp) ?_ chunk hchunk
    intro u hu
    simp only [List.mem_flatMap] at hu
    obtain ⟨p, hp, hup⟩ := hu
    by_cases hple : p.length ≤ chunkSize
    · rw [if_pos hple, List.mem_singleton] at hup
      exact hup ▸ hple
    · rw [if_neg hple] at hup
      exact ih p u hup

/-- Claim C10: with `chunkOverlap < chunkSize`, `splitText` returns no
chunks for empty input, returns the text whole when it is non-empty
and no longer than `chunkSize` (the empty-input rule takes precedence,
as in the spec and the unit tests), and every chunk it produces has
length at most `chunkSize`. -/
theorem splitText_spec (chunkSize chunkOverlap : Nat)
    (text : List Char) (hovl : chunkOverlap < chunkSize) :
    splitTextL chunkSize chunkOverlap [] = [] ∧
    (text ≠ [] → text.length ≤ chunkSize →
      splitTextL chunkSize chunkOverlap text = [text]) ∧
    ∀ chunk ∈ splitTextL chunkSize chunkOverlap text,
      chunk.length ≤ chunkSize := by
  refine ⟨rfl, ?_, ?_⟩
  · intro hne hlen
    rw [splitTextL, if_neg hne, if_pos hlen]
  · intro chunk hchunk
    rw [splitTextL] at hchunk
    by_cases h1 : text = []
    · rw [if_pos h1] at hchunk
      cases hchunk
    · rw [if_neg h1] at hchunk
      by_cases h2 : text.length ≤ chunkSize
      · rw [if_pos h2, List.mem_singleton] at hchunk
        exact hchunk ▸ h2
      · rw [if_neg h2] at hchunk
        exact splitWithSeps_length_le chunkSize chunkOverlap (by omega)
          splitterSeps text chunk hchunk

theorem splitText_spec_witness :
    splitTextL 3 1 [] = [] ∧
    splitTextL 3 1 ['a', 'b'] = [['a', 'b']] := by
  have h1 := splitText_spec 3 1 ['a', 'b'] (by decide)
  exact ⟨h1.1, h1.2.1 (by decide) (by decide)⟩
